import Mathlib

/-!
Shallow embedding of the `static_containers` module (a fixed-capacity vector
over an array of possibly-uninitialized slots) and proofs about its operations.

Modelling conventions:
* `MaybeUninit<T>` slots become `Option T`; an uninitialized slot is `none`.
* The backing array `[MaybeUninit<T>; N]` becomes a `List (Option T)` whose
  length is `N` for every state reachable from the constructors.
* A fatal panic is modelled as `Except.error s` where `s` is the container
  state at the moment of the panic; `Except.ok` carries the normal result.
* Reading a slot with `assume_init` yields the slot's `Option T` value; on a
  well-formed state the slot is always `some`, so the impossible
  uninitialized read never shows up under the `WF` hypothesis.
* A Rust closure `FnOnce(&mut T) -> bool` is modelled as `T → T × Bool`:
  the returned `T` is the value left behind through the mutable reference.
-/

namespace StaticContainers

/-- The Rust struct `StaticVector<T, N>`: `storage: [MaybeUninit<T>; N]`
modelled as a list of optional values, plus the `len` field. -/
structure StaticVector (T : Type) (N : Nat) where
  storage : List (Option T)
  len : Nat
deriving DecidableEq

namespace StaticVector

variable {T : Type} {N : Nat}

/-- `StaticVector::new`: all `N` slots uninitialized, `len = 0`. -/
def new (T : Type) (N : Nat) : StaticVector T N :=
  ⟨List.replicate N none, 0⟩

/-- `StaticVector::capacity`: the const generic `N`. -/
def capacity (_ : StaticVector T N) : Nat := N

/-- `is_empty` (obtained from the slice deref): `len == 0`. -/
def is_empty (v : StaticVector T N) : Bool := v.len == 0

/-- `as_slice`: the live region `storage[0..len)`. -/
def as_slice (v : StaticVector T N) : List (Option T) := v.storage.take v.len

/-- `StaticVector::push`: `storage.get_mut(len)` succeeds exactly when
`len < N`; on success it writes the value into slot `len` and increments
`len`; otherwise the code panics. -/
def push (v : StaticVector T N) (value : T) : Except (StaticVector T N) (StaticVector T N) :=
  if v.len < N then
    Except.ok ⟨v.storage.set v.len (some value), v.len + 1⟩
  else
    Except.error v

/-- `StaticVector::last`: last element of the live slice, if any. -/
def last (v : StaticVector T N) : Option T :=
  (v.as_slice.getLast?).join

/-- `StaticVector::unchecked_pop`: decrement `len`, then read the slot at the
new `len`. The storage itself is unchanged (the Rust code only moves the value
out bitwise). -/
def unchecked_pop (v : StaticVector T N) : Option T × StaticVector T N :=
  ((v.storage[v.len - 1]?).join, ⟨v.storage, v.len - 1⟩)

/-- `StaticVector::pop`: `None` on an empty container, otherwise
`unchecked_pop`. -/
def pop (v : StaticVector T N) : Option T × StaticVector T N :=
  if v.is_empty then (none, v) else v.unchecked_pop

/-- `StaticVector::pop_if`: look at the last element through `last_mut`
(empty container short-circuits to `None`), run the caller's closure on it
(the closure may rewrite the element through the mutable reference), then pop
exactly when the closure returned `true`. -/
def pop_if (v : StaticVector T N) (f : T → T × Bool) : Option T × StaticVector T N :=
  match v.last with
  | none => (none, v)
  | some x =>
    let fx := f x
    let v' : StaticVector T N := ⟨v.storage.set (v.len - 1) (some fx.1), v.len⟩
    if fx.2 then v'.pop else (none, v')

/-- `StaticVector::clear`: `while self.pop().is_some()` — `pop` yields a value
exactly while the container is nonempty, so the loop runs until `len = 0`. -/
def clear (v : StaticVector T N) : StaticVector T N :=
  if h : v.is_empty then v else clear (v.pop).2
termination_by v.len
decreasing_by
  simp only [is_empty, beq_iff_eq] at h
  simp [pop, is_empty, h, unchecked_pop]
  omega

/-- `StaticVector::unchecked_truncate`: `while self.len() != new_len: pop`.
Every call site guarantees `new_len < len`, and the loop then stops exactly
when `len` reaches `new_len` (for `new_len > len` the source loop would never
terminate, so the model also just stops there). -/
def unchecked_truncate (v : StaticVector T N) (newLen : Nat) : StaticVector T N :=
  if h : newLen < v.len then unchecked_truncate (v.pop).2 newLen else v
termination_by v.len
decreasing_by
  have hne : v.len ≠ 0 := by omega
  simp [pop, is_empty, hne, unchecked_pop]
  omega

/-- `StaticVector::truncate`: truncate only when `new_len < len`. -/
def truncate (v : StaticVector T N) (newLen : Nat) : StaticVector T N :=
  if newLen < v.len then v.unchecked_truncate newLen else v

/-- The `for idx in self.len..new_len` loop inside `resize`: write a clone of
`value` into every slot of `[start, stop)`. -/
def write_fill (storage : List (Option T)) (start stop : Nat) (value : T) : List (Option T) :=
  if start < stop then write_fill (storage.set start (some value)) (start + 1) stop value
  else storage
termination_by stop - start
decreasing_by omega

/-- `StaticVector::resize`: `new_len < len` truncates; `len ≤ new_len ≤ N`
fills `[len, new_len)` with clones of `value` and sets `len = new_len`;
otherwise the code panics. -/
def resize (v : StaticVector T N) (newLen : Nat) (value : T) :
    Except (StaticVector T N) (StaticVector T N) :=
  if newLen < v.len then
    Except.ok (v.unchecked_truncate newLen)
  else if v.len ≤ newLen ∧ newLen < v.capacity + 1 then
    Except.ok ⟨write_fill v.storage v.len newLen value, newLen⟩
  else
    Except.error v

/-- `self.get_unchecked_mut(index..).rotate_left(1)`: rotate the live region
`storage[i..len)` left by one inside the backing storage. -/
def rotate_sub (storage : List (Option T)) (i len : Nat) : List (Option T) :=
  let m := (storage.drop i).take (len - i)
  storage.take i ++ (m.drop 1 ++ m.take 1) ++ storage.drop len

/-- `StaticVector::remove`: when `index < len`, rotate `storage[index..len)`
left by one and pop the last live slot (which now holds the removed element);
otherwise the code panics. -/
def remove (v : StaticVector T N) (index : Nat) :
    Except (StaticVector T N) (Option T × StaticVector T N) :=
  if index < v.len then
    Except.ok (StaticVector.unchecked_pop ⟨rotate_sub v.storage index v.len, v.len⟩)
  else
    Except.error v

/-- `std::ptr::swap(first, last)` on two storage slots. -/
def swap_slots (storage : List (Option T)) (i j : Nat) : List (Option T) :=
  (storage.set i (storage.getD j none)).set j (storage.getD i none)

/-- `StaticVector::remove_swap`: when `index < len`, swap slot `index` with
slot `len - 1` (the first and last elements of the live subrange `index..`)
and pop; otherwise the code panics. -/
def remove_swap (v : StaticVector T N) (index : Nat) :
    Except (StaticVector T N) (Option T × StaticVector T N) :=
  if index < v.len then
    Except.ok (StaticVector.unchecked_pop ⟨swap_slots v.storage index (v.len - 1), v.len⟩)
  else
    Except.error v

/-- `std::ptr::copy(p, p.add(1), len - index)`: slots `[index+1, len+1)`
receive the old contents of `[index, len)`; everything else is unchanged. -/
def copy_shift (storage : List (Option T)) (index len : Nat) : List (Option T) :=
  storage.take (index + 1) ++ (storage.drop index).take (len - index) ++ storage.drop (len + 1)

/-- `StaticVector::insert`: panic when `index > len` or `len == capacity`.
Otherwise the code computes `p = self.as_mut_ptr().add(index)`. `as_mut_ptr`
goes through `as_slice_mut`, which returns `&mut []` when the container is
EMPTY — a pointer with no connection to `storage` — so on an empty container
`std::ptr::write(p, element)` goes to a dangling location (undefined
behavior): the element never reaches `storage[0]`, yet `len += 1` still
happens. The model renders that broken path as "storage untouched, length
incremented" (slot 0 stays uninitialized while becoming live). On a nonempty
container the pointer is genuine: shift `[index, len)` right by one (a no-op
when `index = len`), write the element into slot `index`, increment `len`. -/
def insert (v : StaticVector T N) (index : Nat) (element : T) :
    Except (StaticVector T N) (StaticVector T N) :=
  if index > v.len then Except.error v
  else if v.len = v.capacity then Except.error v
  else if v.is_empty then
    Except.ok ⟨v.storage, v.len + 1⟩
  else
    let copied := if index < v.len then copy_shift v.storage index v.len else v.storage
    Except.ok ⟨copied.set index (some element), v.len + 1⟩

/-- `From<&[T]>`: zip the `N` storage slots with the source and clone each
paired element in; `len` becomes the number of pairs, `min N xs.length`. -/
def from_slice (N : Nat) (xs : List T) : StaticVector T N :=
  ⟨(xs.take N).map some ++ List.replicate (N - xs.length) none, min N xs.length⟩

/-- `From<[T; N]>`: move all `N` elements in; `len = N`. -/
def from_array (xs : List T) : StaticVector T xs.length :=
  ⟨xs.map some, xs.length⟩

/-- `impl Clone`: start from `Self::new()` and copy the first
`min len N` slots (the zip of the two `N`-slot arrays taken `len` times),
incrementing the clone's `len` once per copied slot. -/
def clone (v : StaticVector T N) : StaticVector T N :=
  ⟨v.storage.take (min v.len N) ++ List.replicate (N - min v.len N) none, min v.len N⟩

end StaticVector

/-- The Rust struct `IntoIter<T, N>`. -/
structure IntoIter (T : Type) (N : Nat) where
  storage : List (Option T)
  len : Nat
  index : Nat
deriving DecidableEq

/-- `StaticVector::into_iter`: the iterator takes the storage and `len` with
`index = 0`; the source container's `len` is set to `0` (so its destructor
drops nothing). The pair returned is (iterator, neutralized container). -/
def StaticVector.into_iter {T : Type} {N : Nat} (v : StaticVector T N) :
    IntoIter T N × StaticVector T N :=
  (⟨v.storage, v.len, 0⟩, ⟨v.storage, 0⟩)

namespace IntoIter

variable {T : Type} {N : Nat}

/-- `Iterator::next`: `self.storage[..self.len].get(self.index)?` — when the
cursor is inside the live window the slot is read out and the cursor
advances; otherwise the iterator is exhausted and unchanged. -/
def next (it : IntoIter T N) : Option T × IntoIter T N :=
  match (it.storage.take it.len)[it.index]? with
  | none => (none, it)
  | some slot => (slot, ⟨it.storage, it.len, it.index + 1⟩)

/-- The results of `k` successive calls to `next`. -/
def nextN (it : IntoIter T N) : Nat → List (Option T)
  | 0 => []
  | k + 1 =>
    let r := it.next
    r.1 :: r.2.nextN k

end IntoIter

/-- Abstraction relation: `v` is a well-formed container whose live prefix
holds exactly the elements of `xs`, in order. -/
def StaticVector.WF {T : Type} {N : Nat} (v : StaticVector T N) (xs : List T) : Prop :=
  v.storage.length = N ∧ v.len = xs.length ∧
  ∀ i : Nat, ∀ h : i < xs.length, v.storage[i]? = some (some xs[i])

/-- The capacity/length invariant `0 ≤ len ≤ capacity` (the lower bound is
inherent in the `Nat` type). -/
def StaticVector.Inv {T : Type} {N : Nat} (v : StaticVector T N) : Prop :=
  v.len ≤ v.capacity

instance {T : Type} [DecidableEq T] {N : Nat} (v : StaticVector T N) (xs : List T) :
    Decidable (v.WF xs) := by
  unfold StaticVector.WF
  infer_instance

instance {T : Type} {N : Nat} (v : StaticVector T N) : Decidable v.Inv := by
  unfold StaticVector.Inv
  infer_instance

namespace StaticVector

variable {T : Type} {N : Nat}

theorem wf_storage_length {v : StaticVector T N} {xs : List T} (h : v.WF xs) :
    v.storage.length = N := h.1

theorem wf_len {v : StaticVector T N} {xs : List T} (h : v.WF xs) :
    v.len = xs.length := h.2.1

theorem wf_get {v : StaticVector T N} {xs : List T} (h : v.WF xs) :
    ∀ i : Nat, ∀ hi : i < xs.length, v.storage[i]? = some (some xs[i]) := h.2.2

theorem wf_len_le {v : StaticVector T N} {xs : List T} (h : v.WF xs) :
    xs.length ≤ N := by
  by_contra hlt
  have hN : N < xs.length := by omega
  have h1 := h.2.2 N hN
  have h2 : v.storage[N]? = none := List.getElem?_eq_none (by rw [h.1])
  rw [h1] at h2
  cases h2

theorem pop_snd (v : StaticVector T N) : (v.pop).2 = ⟨v.storage, v.len - 1⟩ := by
  cases v with
  | mk storage len =>
    by_cases h : len = 0
    · simp [pop, is_empty, h, unchecked_pop]
    · simp [pop, is_empty, h, unchecked_pop]

theorem unchecked_truncate_eq (storage : List (Option T)) (len n : Nat) :
    unchecked_truncate (⟨storage, len⟩ : StaticVector T N) n = ⟨storage, min n len⟩ := by
  induction len with
  | zero =>
    rw [unchecked_truncate]
    simp
  | succ l ih =>
    rw [unchecked_truncate]
    by_cases h : n < l + 1
    · rw [dif_pos h]
      have hp : (pop (⟨storage, l + 1⟩ : StaticVector T N)).2 = ⟨storage, l⟩ := by
        simp [pop, is_empty, unchecked_pop]
      rw [hp, ih]
      simp only [mk.injEq, true_and]
      omega
    · rw [dif_neg h]
      simp only [mk.injEq, true_and]
      omega

theorem unchecked_truncate_eq' (v : StaticVector T N) (n : Nat) :
    v.unchecked_truncate n = ⟨v.storage, min n v.len⟩ := by
  cases v
  exact unchecked_truncate_eq ..

theorem clear_eq (v : StaticVector T N) : v.clear = ⟨v.storage, 0⟩ := by
  cases v with
  | mk storage len =>
    induction len with
    | zero =>
      rw [clear]
      simp [is_empty]
    | succ l ih =>
      rw [clear]
      have hne : ¬ is_empty (⟨storage, l + 1⟩ : StaticVector T N) = true := by
        simp [is_empty]
      rw [dif_neg hne]
      have hp : (pop (⟨storage, l + 1⟩ : StaticVector T N)).2 = ⟨storage, l⟩ := by
        simp [pop, is_empty, unchecked_pop]
      rw [hp, ih]

theorem getElem?_write_fill (s : List (Option T)) (a b : Nat) (x : T) (j : Nat) :
    (write_fill s a b x)[j]? =
      if a ≤ j ∧ j < b ∧ j < s.length then some (some x) else s[j]? := by
  generalize hk : b - a = k
  induction k generalizing s a with
  | zero =>
    rw [write_fill, if_neg (by omega)]
    rw [if_neg (by omega)]
  | succ k ih =>
    rw [write_fill, if_pos (by omega)]
    rw [ih (s.set a (some x)) (a + 1) (by omega)]
    rw [List.length_set, List.getElem?_set]
    by_cases h1 : a + 1 ≤ j ∧ j < b ∧ j < s.length
    · rw [if_pos h1, if_pos (by omega)]
    · rw [if_neg h1]
      by_cases h2 : a = j
      · subst h2
        by_cases h3 : a < s.length
        · rw [if_pos rfl, if_pos h3, if_pos (by omega)]
        · rw [if_pos rfl, if_neg h3, if_neg (by omega)]
          exact (List.getElem?_eq_none (by omega)).symm
      · rw [if_neg h2]
        rw [if_neg (by omega)]

theorem write_fill_length (s : List (Option T)) (a b : Nat) (x : T) :
    (write_fill s a b x).length = s.length := by
  generalize hk : b - a = k
  induction k generalizing s a with
  | zero =>
    rw [write_fill, if_neg (by omega)]
  | succ k ih =>
    rw [write_fill, if_pos (by omega)]
    rw [ih (s.set a (some x)) (a + 1) (by omega)]
    exact List.length_set ..

theorem new_wf : (new T N).WF [] := by
  refine ⟨by simp [new], by simp [new], ?_⟩
  intro i hi
  cases hi

theorem from_array_wf (xs : List T) : (from_array xs).WF xs := by
  refine ⟨by simp [from_array], by simp [from_array], ?_⟩
  intro i hi
  simp [from_array, List.getElem?_map, List.getElem?_eq_getElem hi]

theorem from_slice_wf (N : Nat) (xs : List T) : (from_slice N xs).WF (xs.take N) := by
  refine ⟨?_, ?_, ?_⟩
  · simp only [from_slice, List.length_append, List.length_map, List.length_take,
      List.length_replicate]
    omega
  · simp only [from_slice, List.length_take]
  · intro i hi
    simp only [List.length_take] at hi
    have him : i < ((xs.take N).map some).length := by
      simp only [List.length_map, List.length_take]
      omega
    show ((xs.take N).map some ++ List.replicate (N - xs.length) none)[i]? = _
    rw [List.getElem?_append_left him]
    have hit : i < (xs.take N).length := by
      simp only [List.length_take]
      omega
    rw [List.getElem?_map, List.getElem?_eq_getElem hit]
    rfl

theorem push_ok {v : StaticVector T N} {xs : List T} (hwf : v.WF xs) (a : T)
    (hlt : xs.length < N) :
    ∃ w, v.push a = Except.ok w ∧ w.WF (xs ++ [a]) := by
  have hl := wf_len hwf
  have hsl := wf_storage_length hwf
  refine ⟨⟨v.storage.set v.len (some a), v.len + 1⟩, ?_, ?_, ?_, ?_⟩
  · rw [push, if_pos (by omega)]
  · simp [hsl]
  · simp [hl]
  · intro i hi
    have hi2 : i < xs.length + 1 := by
      simpa using hi
    show (v.storage.set v.len (some a))[i]? = _
    rw [← List.getElem?_eq_getElem hi]
    rw [List.getElem?_set]
    by_cases hie : i < xs.length
    · rw [if_neg (by omega)]
      have hy : (xs ++ [a])[i]? = xs[i]? := List.getElem?_append_left hie
      rw [hy, wf_get hwf i hie, List.getElem?_eq_getElem hie]
    · have hieq : i = xs.length := by omega
      rw [if_pos (by omega), if_pos (by omega)]
      subst hieq
      have hy : (xs ++ [a])[xs.length]? = some a := by
        rw [List.getElem?_append_right (Nat.le_refl _)]
        simp
      rw [hy]

theorem push_error_iff {v : StaticVector T N} {xs : List T} (hwf : v.WF xs) (a : T) :
    (∃ s, v.push a = Except.error s) ↔ xs.length = N := by
  have hl := wf_len hwf
  have hle := wf_len_le hwf
  rw [push]
  by_cases h : v.len < N
  · rw [if_pos h]
    simp
    omega
  · rw [if_neg h]
    simp
    omega

theorem pop_nil {v : StaticVector T N} (hwf : v.WF []) : v.pop = (none, v) := by
  have hl := wf_len hwf
  simp [pop, is_empty, hl]

theorem pop_concat {v : StaticVector T N} {ys : List T} {x : T}
    (hwf : v.WF (ys ++ [x])) :
    ∃ w, v.pop = (some x, w) ∧ w.WF ys := by
  have hl := wf_len hwf
  have hsl := wf_storage_length hwf
  have hl1 : v.len = ys.length + 1 := by
    simp at hl
    omega
  refine ⟨⟨v.storage, ys.length⟩, ?_, hsl, rfl, ?_⟩
  · have hne : ¬ v.is_empty = true := by
      simp only [is_empty, beq_iff_eq]
      omega
    rw [pop, if_neg hne, unchecked_pop, hl1]
    simp only [Nat.add_sub_cancel]
    have hg := wf_get hwf ys.length (by simp)
    rw [hg]
    simp [List.getElem_concat_length]
  · intro i hi
    show v.storage[i]? = _
    rw [← List.getElem?_eq_getElem hi]
    have hy : ys[i]? = (ys ++ [x])[i]? := (List.getElem?_append_left hi).symm
    rw [hy, List.getElem?_eq_getElem (l := ys ++ [x]) (n := i) (by simp; omega)]
    exact wf_get hwf i (by simp; omega)

theorem truncate_wf {v : StaticVector T N} {xs : List T} (hwf : v.WF xs) (n : Nat) :
    (v.truncate n).WF (xs.take n) := by
  have hl := wf_len hwf
  have hsl := wf_storage_length hwf
  rw [truncate]
  by_cases h : n < v.len
  · rw [if_pos h, unchecked_truncate_eq']
    refine ⟨hsl, ?_, ?_⟩
    · simp
      omega
    · intro i hi
      simp only [List.length_take] at hi
      have hilt : i < xs.length := by omega
      rw [wf_get hwf i hilt]
      have : (xs.take n)[i] = xs[i] := List.getElem_take ..
      rw [this]
  · rw [if_neg h]
    have : xs.take n = xs := List.take_of_length_le (by omega)
    rw [this]
    exact hwf

theorem clear_wf {v : StaticVector T N} {xs : List T} (hwf : v.WF xs) :
    (v.clear).WF [] := by
  have hsl := wf_storage_length hwf
  rw [clear_eq]
  exact ⟨hsl, rfl, by intro i hi; cases hi⟩

theorem resize_shrink_eq {v : StaticVector T N} (n : Nat) (x : T) (h : n < v.len) :
    v.resize n x = Except.ok (v.truncate n) := by
  rw [resize, if_pos h, truncate, if_pos h]

theorem resize_grow {v : StaticVector T N} {xs : List T} (hwf : v.WF xs) (n : Nat) (x : T)
    (h1 : xs.length ≤ n) (h2 : n ≤ N) :
    ∃ w, v.resize n x = Except.ok w ∧ w.WF (xs ++ List.replicate (n - xs.length) x) := by
  have hl := wf_len hwf
  have hsl := wf_storage_length hwf
  refine ⟨⟨write_fill v.storage v.len n x, n⟩, ?_, ?_, ?_, ?_⟩
  · rw [resize, if_neg (by omega)]
    rw [if_pos ?_]
    refine ⟨by omega, ?_⟩
    rw [capacity]
    omega
  · rw [write_fill_length, hsl]
  · simp
    omega
  · intro i hi
    have hi2 : i < n := by
      simp only [List.length_append, List.length_replicate] at hi
      omega
    show (write_fill v.storage v.len n x)[i]? = _
    rw [← List.getElem?_eq_getElem hi]
    rw [getElem?_write_fill]
    by_cases hie : i < xs.length
    · rw [if_neg (by omega)]
      have hy : (xs ++ List.replicate (n - xs.length) x)[i]? = xs[i]? :=
        List.getElem?_append_left hie
      rw [hy, wf_get hwf i hie, List.getElem?_eq_getElem hie]
    · rw [if_pos (by omega)]
      have hy : (xs ++ List.replicate (n - xs.length) x)[i]? = some x := by
        rw [List.getElem?_append_right (by omega)]
        rw [List.getElem?_replicate]
        rw [if_pos (by omega)]
      rw [hy]

theorem copy_shift_length (s : List (Option T)) (i len : Nat)
    (h1 : i ≤ len) (h2 : len < s.length) :
    (copy_shift s i len).length = s.length := by
  simp only [copy_shift, List.length_append, List.length_take, List.length_drop]
  omega

theorem getElem?_copy_shift (s : List (Option T)) (i len j : Nat)
    (h1 : i ≤ len) (h2 : len < s.length) :
    (copy_shift s i len)[j]? =
      if j ≤ i then s[j]?
      else if j ≤ len then s[j - 1]?
      else s[j]? := by
  have lA : (s.take (i + 1)).length = i + 1 := by
    simp only [List.length_take]
    omega
  have lB : ((s.drop i).take (len - i)).length = len - i := by
    simp only [List.length_take, List.length_drop]
    omega
  have lX : (s.take (i + 1) ++ (s.drop i).take (len - i)).length = len + 1 := by
    simp only [List.length_append, lA, lB]
    omega
  rw [copy_shift]
  by_cases c1 : j ≤ i
  · rw [if_pos c1]
    rw [List.getElem?_append_left (by omega)]
    rw [List.getElem?_append_left (by omega)]
    exact List.getElem?_take_of_lt (by omega)
  · rw [if_neg c1]
    by_cases c2 : j ≤ len
    · rw [if_pos c2]
      rw [List.getElem?_append_left (by omega)]
      rw [List.getElem?_append_right (by omega)]
      rw [lA]
      rw [List.getElem?_take_of_lt (by omega)]
      rw [List.getElem?_drop]
      congr 1
      omega
    · rw [if_neg c2]
      rw [List.getElem?_append_right (by omega)]
      rw [lX]
      rw [List.getElem?_drop]
      congr 1
      omega

theorem rotate_sub_length (s : List (Option T)) (i len : Nat)
    (h1 : i < len) (h2 : len ≤ s.length) :
    (rotate_sub s i len).length = s.length := by
  simp only [rotate_sub, List.length_append, List.length_take, List.length_drop]
  omega

theorem getElem?_rotate_sub (s : List (Option T)) (i len j : Nat)
    (h1 : i < len) (h2 : len ≤ s.length) :
    (rotate_sub s i len)[j]? =
      if j < i then s[j]?
      else if j < len - 1 then s[j + 1]?
      else if j = len - 1 then s[i]?
      else s[j]? := by
  have lA : (s.take i).length = i := by
    simp only [List.length_take]
    omega
  have lm : ((s.drop i).take (len - i)).length = len - i := by
    simp only [List.length_take, List.length_drop]
    omega
  have lmd : (((s.drop i).take (len - i)).drop 1).length = len - i - 1 := by
    simp only [List.length_drop, lm]
  have lB : (((s.drop i).take (len - i)).drop 1 ++ ((s.drop i).take (len - i)).take 1).length
      = len - i := by
    simp only [List.length_append, List.length_take, lmd, lm]
    omega
  have lX : (s.take i ++
      (((s.drop i).take (len - i)).drop 1 ++ ((s.drop i).take (len - i)).take 1)).length
      = len := by
    simp only [List.length_append, lA, lB]
    omega
  rw [rotate_sub]
  by_cases c1 : j < i
  · rw [if_pos c1]
    rw [List.getElem?_append_left (by omega)]
    rw [List.getElem?_append_left (by omega)]
    exact List.getElem?_take_of_lt (by omega)
  · rw [if_neg c1]
    by_cases c2 : j < len - 1
    · rw [if_pos c2]
      rw [List.getElem?_append_left (by omega)]
      rw [List.getElem?_append_right (by omega)]
      rw [lA]
      rw [List.getElem?_append_left (by omega)]
      rw [List.getElem?_drop]
      rw [List.getElem?_take_of_lt (by omega)]
      rw [List.getElem?_drop]
      congr 1
      omega
    · by_cases c3 : j = len - 1
      · rw [if_neg c2, if_pos c3]
        rw [List.getElem?_append_left (by omega)]
        rw [List.getElem?_append_right (by omega)]
        rw [lA]
        rw [List.getElem?_append_right (by omega)]
        rw [lmd]
        have hz : j - i - (len - i - 1) = 0 := by omega
        rw [hz]
        rw [List.getElem?_take_of_lt (by omega)]
        rw [List.getElem?_take_of_lt (by omega)]
        rw [List.getElem?_drop]
        simp
      · rw [if_neg c2, if_neg c3]
        rw [List.getElem?_append_right (by omega)]
        rw [lX]
        rw [List.getElem?_drop]
        congr 1
        omega

theorem resize_error_iff {v : StaticVector T N} {xs : List T} (hwf : v.WF xs)
    (n : Nat) (x : T) :
    (∃ s, v.resize n x = Except.error s) ↔ N < n := by
  have hl := wf_len hwf
  have hle := wf_len_le hwf
  rw [resize]
  by_cases h1 : n < v.len
  · rw [if_pos h1]
    simp
    omega
  · rw [if_neg h1]
    by_cases h2 : v.len ≤ n ∧ n < v.capacity + 1
    · rw [if_pos h2]
      simp
      rw [capacity] at h2
      omega
    · rw [if_neg h2]
      simp
      rw [capacity] at h2
      omega

theorem insert_ok {v : StaticVector T N} {xs : List T} (hwf : v.WF xs) (i : Nat) (a : T)
    (h0 : 0 < xs.length) (h1 : i ≤ xs.length) (h2 : xs.length < N) :
    ∃ w, v.insert i a = Except.ok w ∧ w.WF (xs.take i ++ a :: xs.drop i) := by
  have hl := wf_len hwf
  have hsl := wf_storage_length hwf
  have hle := wf_len_le hwf
  have hcop : ∀ jj : Nat,
      (if i < v.len then copy_shift v.storage i v.len else v.storage)[jj]? =
      if jj ≤ i then v.storage[jj]?
      else if jj ≤ v.len then v.storage[jj - 1]?
      else v.storage[jj]? := by
    intro jj
    by_cases hc : i < v.len
    · rw [if_pos hc]
      exact getElem?_copy_shift v.storage i v.len jj (by omega) (by omega)
    · rw [if_neg hc]
      by_cases d1 : jj ≤ i
      · rw [if_pos d1]
      · rw [if_neg d1, if_neg (by omega)]
  have hcoplen :
      (if i < v.len then copy_shift v.storage i v.len else v.storage).length = N := by
    by_cases hc : i < v.len
    · rw [if_pos hc, copy_shift_length _ _ _ (by omega) (by omega), hsl]
    · rw [if_neg hc, hsl]
  refine ⟨⟨(if i < v.len then copy_shift v.storage i v.len else v.storage).set i (some a),
      v.len + 1⟩, ?_, ?_, ?_, ?_⟩
  · rw [insert, if_neg (by omega), if_neg (by rw [capacity]; omega),
      if_neg (by simp only [is_empty, beq_iff_eq]; omega)]
  · show ((if i < v.len then copy_shift v.storage i v.len else v.storage).set i
      (some a)).length = N
    rw [List.length_set, hcoplen]
  · show v.len + 1 = (xs.take i ++ a :: xs.drop i).length
    simp only [List.length_append, List.length_cons, List.length_take, List.length_drop]
    omega
  · intro j hj
    have hj1 : j < xs.length + 1 := by
      simp only [List.length_append, List.length_cons, List.length_take,
        List.length_drop] at hj
      omega
    show ((if i < v.len then copy_shift v.storage i v.len else v.storage).set i
      (some a))[j]? = _
    rw [← List.getElem?_eq_getElem hj]
    rw [List.getElem?_set]
    by_cases hji : i = j
    · rw [if_pos hji, if_pos (by rw [hcoplen]; omega)]
      subst hji
      have hy : (xs.take i ++ a :: xs.drop i)[i]? = some a := by
        rw [List.getElem?_append_right (by simp only [List.length_take]; omega)]
        have hz : i - (xs.take i).length = 0 := by
          simp only [List.length_take]
          omega
        rw [hz]
        simp
      rw [hy]
    · rw [if_neg hji]
      rw [hcop j]
      by_cases d1 : j < i
      · rw [if_pos (by omega)]
        have hy : (xs.take i ++ a :: xs.drop i)[j]? = xs[j]? := by
          rw [List.getElem?_append_left (by simp only [List.length_take]; omega)]
          exact List.getElem?_take_of_lt d1
        rw [hy, wf_get hwf j (by omega), List.getElem?_eq_getElem (by omega)]
      · rw [if_neg (by omega), if_pos (by omega)]
        have hy : (xs.take i ++ a :: xs.drop i)[j]? = xs[j - 1]? := by
          rw [List.getElem?_append_right (by simp only [List.length_take]; omega)]
          have hz : j - (xs.take i).length = (j - i - 1) + 1 := by
            simp only [List.length_take]
            omega
          rw [hz, List.getElem?_cons_succ, List.getElem?_drop]
          congr 1
          omega
        rw [hy, wf_get hwf (j - 1) (by omega), List.getElem?_eq_getElem (by omega)]

theorem insert_error_iff {v : StaticVector T N} {xs : List T} (hwf : v.WF xs)
    (i : Nat) (a : T) :
    (∃ s, v.insert i a = Except.error s) ↔ xs.length < i ∨ xs.length = N := by
  have hl := wf_len hwf
  have hle := wf_len_le hwf
  rw [insert]
  by_cases c1 : i > v.len
  · rw [if_pos c1]
    simp
    omega
  · rw [if_neg c1]
    by_cases c2 : v.len = v.capacity
    · rw [if_pos c2]
      rw [capacity] at c2
      simp
      omega
    · rw [if_neg c2]
      rw [capacity] at c2
      by_cases c3 : v.is_empty
      · rw [if_pos c3]
        simp
        omega
      · rw [if_neg c3]
        simp
        omega

theorem remove_ok {v : StaticVector T N} {xs : List T} (hwf : v.WF xs) (i : Nat)
    (hi : i < xs.length) :
    ∃ w, v.remove i = Except.ok (some xs[i], w) ∧
      w.WF (xs.take i ++ xs.drop (i + 1)) := by
  have hl := wf_len hwf
  have hsl := wf_storage_length hwf
  have hle := wf_len_le hwf
  refine ⟨⟨rotate_sub v.storage i v.len, v.len - 1⟩, ?_, ?_, ?_, ?_⟩
  · rw [remove, if_pos (by omega)]
    simp only [unchecked_pop]
    have hc := getElem?_rotate_sub v.storage i v.len (v.len - 1) (by omega) (by omega)
    rw [if_neg (by omega), if_neg (by omega), if_pos rfl] at hc
    rw [hc, wf_get hwf i hi]
    rfl
  · show (rotate_sub v.storage i v.len).length = N
    rw [rotate_sub_length _ _ _ (by omega) (by omega), hsl]
  · show v.len - 1 = (xs.take i ++ xs.drop (i + 1)).length
    simp only [List.length_append, List.length_take, List.length_drop]
    omega
  · intro j hj
    have hj1 : j < xs.length - 1 := by
      simp only [List.length_append, List.length_take, List.length_drop] at hj
      omega
    show (rotate_sub v.storage i v.len)[j]? = _
    rw [← List.getElem?_eq_getElem hj]
    have hc := getElem?_rotate_sub v.storage i v.len j (by omega) (by omega)
    by_cases d : j < i
    · rw [if_pos d] at hc
      have hy : (xs.take i ++ xs.drop (i + 1))[j]? = xs[j]? := by
        rw [List.getElem?_append_left (by simp only [List.length_take]; omega)]
        exact List.getElem?_take_of_lt d
      rw [hy, hc, wf_get hwf j (by omega), List.getElem?_eq_getElem (by omega)]
    · rw [if_neg d, if_pos (by omega)] at hc
      have hy : (xs.take i ++ xs.drop (i + 1))[j]? = xs[j + 1]? := by
        rw [List.getElem?_append_right (by simp only [List.length_take]; omega)]
        rw [List.getElem?_drop]
        congr 1
        simp only [List.length_take]
        omega
      rw [hy, hc, wf_get hwf (j + 1) (by omega), List.getElem?_eq_getElem (by omega)]

theorem remove_error_iff {v : StaticVector T N} {xs : List T} (hwf : v.WF xs) (i : Nat) :
    (∃ s, v.remove i = Except.error s) ↔ xs.length ≤ i := by
  have hl := wf_len hwf
  rw [remove]
  by_cases h : i < v.len
  · rw [if_pos h]
    simp
    omega
  · rw [if_neg h]
    simp
    omega

theorem remove_swap_ok {v : StaticVector T N} {xs : List T} (hwf : v.WF xs) (i : Nat)
    (hi : i < xs.length) {last : T} (hlast : xs.getLast? = some last) :
    ∃ w, v.remove_swap i = Except.ok (some xs[i], w) ∧
      w.WF ((xs.set i last).dropLast) := by
  have hl := wf_len hwf
  have hsl := wf_storage_length hwf
  have hle := wf_len_le hwf
  have hlast2 : xs[xs.length - 1]? = some last := by
    rw [← List.getLast?_eq_getElem?]
    exact hlast
  have hgl : v.storage[xs.length - 1]? = some (some last) := by
    rw [wf_get hwf (xs.length - 1) (by omega)]
    have h2 := List.getElem?_eq_getElem (l := xs) (n := xs.length - 1) (by omega)
    rw [hlast2] at h2
    rw [← Option.some.inj h2]
  have hgd1 : v.storage.getD (v.len - 1) none = some last := by
    rw [List.getD_eq_getElem?_getD, hl, hgl]
    rfl
  have hgdi : v.storage.getD i none = some xs[i] := by
    rw [List.getD_eq_getElem?_getD, wf_get hwf i hi]
    rfl
  refine ⟨⟨swap_slots v.storage i (v.len - 1), v.len - 1⟩, ?_, ?_, ?_, ?_⟩
  · rw [remove_swap, if_pos (by omega)]
    simp only [unchecked_pop]
    have hsw : (swap_slots v.storage i (v.len - 1))[v.len - 1]? =
        some (v.storage.getD i none) := by
      rw [swap_slots]
      exact List.getElem?_set_self (by rw [List.length_set, hsl]; omega)
    rw [hsw, hgdi]
    rfl
  · show (swap_slots v.storage i (v.len - 1)).length = N
    simp only [swap_slots, List.length_set, hsl]
  · show v.len - 1 = ((xs.set i last).dropLast).length
    simp only [List.length_dropLast, List.length_set]
    omega
  · intro j hj
    have hj1 : j < xs.length - 1 := by
      simp only [List.length_dropLast, List.length_set] at hj
      omega
    show (swap_slots v.storage i (v.len - 1))[j]? = _
    rw [← List.getElem?_eq_getElem hj]
    have hy : ((xs.set i last).dropLast)[j]? =
        if i = j then some last else xs[j]? := by
      rw [List.getElem?_dropLast]
      rw [List.length_set]
      rw [if_pos (by omega)]
      rw [List.getElem?_set]
      by_cases d : i = j
      · rw [if_pos d, if_pos (by omega), if_pos d]
      · rw [if_neg d, if_neg d]
    rw [hy]
    rw [swap_slots]
    rw [List.getElem?_set_ne (by omega)]
    by_cases d : i = j
    · subst d
      rw [List.getElem?_set_self (by rw [hsl]; omega), if_pos rfl]
      rw [hgd1]
    · rw [List.getElem?_set_ne d, if_neg d]
      rw [wf_get hwf j (by omega), List.getElem?_eq_getElem (by omega)]

theorem remove_swap_error_iff {v : StaticVector T N} {xs : List T} (hwf : v.WF xs)
    (i : Nat) :
    (∃ s, v.remove_swap i = Except.error s) ↔ xs.length ≤ i := by
  have hl := wf_len hwf
  rw [remove_swap]
  by_cases h : i < v.len
  · rw [if_pos h]
    simp
    omega
  · rw [if_neg h]
    simp
    omega

theorem clone_wf {v : StaticVector T N} {xs : List T} (hwf : v.WF xs) :
    (v.clone).WF xs := by
  have hl := wf_len hwf
  have hsl := wf_storage_length hwf
  have hle := wf_len_le hwf
  refine ⟨?_, ?_, ?_⟩
  · show (v.storage.take (min v.len N) ++ List.replicate (N - min v.len N) none).length = N
    simp only [List.length_append, List.length_take, List.length_replicate]
    omega
  · show min v.len N = xs.length
    omega
  · intro j hj
    show (v.storage.take (min v.len N) ++ List.replicate (N - min v.len N) none)[j]? = _
    rw [List.getElem?_append_left (by simp only [List.length_take]; omega)]
    rw [List.getElem?_take_of_lt (by omega)]
    exact wf_get hwf j hj

theorem last_nil {v : StaticVector T N} (hwf : v.WF []) : v.last = none := by
  have hl := wf_len hwf
  simp [last, as_slice, hl]

theorem last_concat {v : StaticVector T N} {ys : List T} {x : T}
    (hwf : v.WF (ys ++ [x])) : v.last = some x := by
  have hl := wf_len hwf
  have hsl := wf_storage_length hwf
  have hle := wf_len_le hwf
  have hl1 : v.len = ys.length + 1 := by
    simp at hl
    omega
  rw [last, as_slice, List.getLast?_eq_getElem?]
  have hlen : (v.storage.take v.len).length = v.len := by
    simp only [List.length_take]
    simp at hle
    omega
  rw [hlen]
  rw [List.getElem?_take_of_lt (by omega)]
  have hg := wf_get hwf ys.length (by simp)
  have hz : v.len - 1 = ys.length := by omega
  rw [hz, hg]
  simp [List.getElem_concat_length]

theorem pop_if_nil {v : StaticVector T N} (hwf : v.WF []) (f : T → T × Bool) :
    v.pop_if f = (none, v) := by
  rw [pop_if, last_nil hwf]

theorem write_last_wf {v : StaticVector T N} {ys : List T} {x : T}
    (hwf : v.WF (ys ++ [x])) (t : T) :
    (⟨v.storage.set (v.len - 1) (some t), v.len⟩ : StaticVector T N).WF (ys ++ [t]) := by
  have hl := wf_len hwf
  have hsl := wf_storage_length hwf
  have hle := wf_len_le hwf
  have hl1 : v.len = ys.length + 1 := by
    simp at hl
    omega
  have hle1 : ys.length + 1 ≤ N := by
    simp at hle
    omega
  refine ⟨by simp [hsl], by simp [hl1], ?_⟩
  intro j hj
  have hj1 : j < ys.length + 1 := by
    simp at hj
    omega
  show (v.storage.set (v.len - 1) (some t))[j]? = _
  rw [← List.getElem?_eq_getElem hj]
  by_cases d : j = ys.length
  · subst d
    have hz : v.len - 1 = ys.length := by omega
    rw [hz]
    rw [List.getElem?_set_self (by omega)]
    have hy : (ys ++ [t])[ys.length]? = some t := by
      rw [List.getElem?_append_right (Nat.le_refl _)]
      simp
    rw [hy]
  · rw [List.getElem?_set_ne (by omega)]
    have hy : (ys ++ [t])[j]? = ys[j]? := List.getElem?_append_left (by omega)
    rw [hy]
    have hy2 : ys[j]? = (ys ++ [x])[j]? := (List.getElem?_append_left (by omega)).symm
    rw [hy2, List.getElem?_eq_getElem (l := ys ++ [x]) (n := j) (by simp; omega)]
    exact wf_get hwf j (by simp; omega)

theorem pop_if_true {v : StaticVector T N} {ys : List T} {x : T}
    (hwf : v.WF (ys ++ [x])) (f : T → T × Bool) (hb : (f x).2 = true) :
    ∃ w, v.pop_if f = (some (f x).1, w) ∧ w.WF ys := by
  obtain ⟨w, hpop, hwfw⟩ := pop_concat (write_last_wf hwf (f x).1)
  refine ⟨w, ?_, hwfw⟩
  rw [pop_if, last_concat hwf]
  show (if (f x).2 = true then
      (⟨v.storage.set (v.len - 1) (some (f x).1), v.len⟩ : StaticVector T N).pop
    else (none, ⟨v.storage.set (v.len - 1) (some (f x).1), v.len⟩)) = _
  rw [if_pos hb]
  exact hpop

theorem pop_if_false {v : StaticVector T N} {ys : List T} {x : T}
    (hwf : v.WF (ys ++ [x])) (f : T → T × Bool) (hb : (f x).2 = false) :
    ∃ w, v.pop_if f = (none, w) ∧ w.WF (ys ++ [(f x).1]) := by
  refine ⟨⟨v.storage.set (v.len - 1) (some (f x).1), v.len⟩, ?_, write_last_wf hwf (f x).1⟩
  rw [pop_if, last_concat hwf]
  show (if (f x).2 = true then
      (⟨v.storage.set (v.len - 1) (some (f x).1), v.len⟩ : StaticVector T N).pop
    else (none, ⟨v.storage.set (v.len - 1) (some (f x).1), v.len⟩)) = _
  rw [if_neg (by simp [hb])]

theorem into_iter_src_wf {v : StaticVector T N} {xs : List T} (hwf : v.WF xs) :
    (v.into_iter).2.WF [] := by
  have hsl := wf_storage_length hwf
  exact ⟨hsl, rfl, by intro i hi; cases hi⟩

theorem nextN_spec (storage : List (Option T)) (xs : List T) (c k : Nat)
    (hsl : xs.length ≤ storage.length)
    (hget : ∀ i : Nat, ∀ h : i < xs.length, storage[i]? = some (some xs[i])) :
    IntoIter.nextN (⟨storage, xs.length, c⟩ : IntoIter T N) k =
      ((xs.drop c).map some).take k ++ List.replicate (k - (xs.length - c)) none := by
  induction k generalizing c with
  | zero => simp [IntoIter.nextN]
  | succ k ih =>
    rw [IntoIter.nextN]
    by_cases hc : c < xs.length
    · have hsc : (storage.take xs.length)[c]? = some (some xs[c]) := by
        rw [List.getElem?_take_of_lt hc]
        exact hget c hc
      have hnext : IntoIter.next (⟨storage, xs.length, c⟩ : IntoIter T N) =
          (some xs[c], ⟨storage, xs.length, c + 1⟩) := by
        rw [IntoIter.next, hsc]
      rw [hnext]
      simp only []
      rw [ih (c + 1)]
      have hdc : xs.drop c = xs[c] :: xs.drop (c + 1) := List.drop_eq_getElem_cons hc
      rw [hdc]
      simp only [List.map_cons, List.take_succ_cons, List.cons_append]
      have hz : k + 1 - (xs.length - c) = k - (xs.length - (c + 1)) := by omega
      rw [hz]
    · have hsc : (storage.take xs.length)[c]? = none := by
        apply List.getElem?_eq_none
        simp only [List.length_take]
        omega
      have hnext : IntoIter.next (⟨storage, xs.length, c⟩ : IntoIter T N) =
          (none, ⟨storage, xs.length, c⟩) := by
        rw [IntoIter.next, hsc]
      rw [hnext]
      simp only []
      rw [ih c]
      have hdc : xs.drop c = [] := List.drop_of_length_le (by omega)
      rw [hdc]
      simp only [List.map_nil, List.take_nil, List.nil_append]
      have hz1 : k - (xs.length - c) = k := by omega
      have hz2 : k + 1 - (xs.length - c) = k + 1 := by omega
      rw [hz1, hz2]
      rw [List.replicate_succ]

theorem pop_if_len_le (v : StaticVector T N) (f : T → T × Bool) :
    (v.pop_if f).2.len ≤ v.len := by
  rw [pop_if]
  cases hv : v.last with
  | none => exact Nat.le_refl _
  | some x =>
    show (if (f x).2 = true then
        (⟨v.storage.set (v.len - 1) (some (f x).1), v.len⟩ : StaticVector T N).pop
      else (none, ⟨v.storage.set (v.len - 1) (some (f x).1), v.len⟩)).2.len ≤ v.len
    by_cases hb : (f x).2 = true
    · rw [if_pos hb]
      rw [pop_snd]
      show v.len - 1 ≤ v.len
      omega
    · rw [if_neg hb]

end StaticVector

namespace Claims

open StaticVector

/-- C1 (code bug): the claim says `insert(i, v)` writes `v` into slot `i` for
every container with `length < capacity` and `i ≤ length`, but on an EMPTY
container the source's `as_mut_ptr` goes through `as_slice_mut`'s `&mut []`
branch, so `ptr::write` targets a dangling pointer unrelated to `storage`:
the element never reaches slot 0, yet `len` still becomes 1 (undefined
behavior). Evaluated at the failing input — `insert 0 7` on the empty
capacity-4 container — the operation takes the non-panicking path and
produces length 1, but slot 0 is still uninitialized: reading index 0 does
not yield 7, and the result is not a well-formed container holding `[7]`. -/
theorem claim_C1_insert_empty_bug :
    StaticVector.insert (StaticVector.new Nat 4) 0 7 =
      Except.ok (⟨List.replicate 4 none, 1⟩ : StaticVector Nat 4) ∧
    (⟨List.replicate 4 (none : Option Nat), 1⟩ : StaticVector Nat 4).len = 1 ∧
    (⟨List.replicate 4 (none : Option Nat), 1⟩ : StaticVector Nat 4).storage[0]? =
      some none ∧
    ¬ (⟨List.replicate 4 (none : Option Nat), 1⟩ : StaticVector Nat 4).WF [7] :=
  ⟨rfl, by decide, by decide, by decide⟩

/-- C2: for every well-formed container holding `xs` and index `i < xs.length`,
`remove i` returns the element previously at `i`, the new live prefix is
`xs.take i ++ xs.drop (i + 1)` (the elements of `[i+1, length)` shifted left
by one, relative order preserved), and the length shrinks by exactly one;
`remove` fails (fatally) exactly when `i ≥ xs.length`. -/
theorem claim_C2_remove_spec {T : Type} {N : Nat} (v : StaticVector T N) (xs : List T)
    (i : Nat) (hwf : v.WF xs) :
    (∀ hi : i < xs.length, ∃ w, v.remove i = Except.ok (some xs[i], w) ∧
        w.WF (xs.take i ++ xs.drop (i + 1)) ∧ w.len = xs.length - 1) ∧
    ((∃ s, v.remove i = Except.error s) ↔ xs.length ≤ i) := by
  refine ⟨fun hi => ?_, remove_error_iff hwf i⟩
  obtain ⟨w, hok, hwfw⟩ := remove_ok hwf i hi
  refine ⟨w, hok, hwfw, ?_⟩
  rw [wf_len hwfw]
  simp only [List.length_append, List.length_take, List.length_drop]
  omega

/-- C3: for every well-formed container holding `xs` and index `i < xs.length`,
`remove_swap i` returns the element previously at `i`, moves the last live
element into slot `i` and leaves every other element in place (the new live
prefix is `(xs.set i last).dropLast`), and the length shrinks by exactly one;
`remove_swap` fails (fatally) exactly when `i ≥ xs.length`. -/
theorem claim_C3_remove_swap_spec {T : Type} {N : Nat} (v : StaticVector T N)
    (xs : List T) (i : Nat) (hwf : v.WF xs) :
    (∀ hi : i < xs.length, ∀ last : T, xs.getLast? = some last →
      ∃ w, v.remove_swap i = Except.ok (some xs[i], w) ∧
        w.WF ((xs.set i last).dropLast) ∧ w.len = xs.length - 1) ∧
    ((∃ s, v.remove_swap i = Except.error s) ↔ xs.length ≤ i) := by
  refine ⟨fun hi last hlast => ?_, remove_swap_error_iff hwf i⟩
  obtain ⟨w, hok, hwfw⟩ := remove_swap_ok hwf i hi hlast
  refine ⟨w, hok, hwfw, ?_⟩
  rw [wf_len hwfw]
  simp only [List.length_dropLast, List.length_set]

/-- C4: for every well-formed container holding `xs`: `resize n fill` with
`n < xs.length` produces exactly the state of `truncate n` (live prefix
`xs.take n`); with `xs.length ≤ n ≤ N` it keeps the live prefix and appends
copies of `fill` into slots `[length, n)` so the new length is `n`; and it
fails (fatally) exactly when `n > N`. -/
theorem claim_C4_resize_spec {T : Type} {N : Nat} (v : StaticVector T N) (xs : List T)
    (n : Nat) (fill : T) (hwf : v.WF xs) :
    (n < xs.length → v.resize n fill = Except.ok (v.truncate n) ∧
      (v.truncate n).WF (xs.take n)) ∧
    (xs.length ≤ n → n ≤ N →
      ∃ w, v.resize n fill = Except.ok w ∧
        w.WF (xs ++ List.replicate (n - xs.length) fill) ∧ w.len = n) ∧
    ((∃ s, v.resize n fill = Except.error s) ↔ N < n) := by
  refine ⟨fun h => ?_, fun h1 h2 => ?_, resize_error_iff hwf n fill⟩
  · have hlt : n < v.len := by rw [wf_len hwf]; omega
    exact ⟨resize_shrink_eq n fill hlt, truncate_wf hwf n⟩
  · obtain ⟨w, hok, hwfw⟩ := resize_grow hwf n fill h1 h2
    refine ⟨w, hok, hwfw, ?_⟩
    rw [wf_len hwfw]
    simp only [List.length_append, List.length_replicate]
    omega

/-- C5: for every well-formed container holding `xs` with `xs.length < N`,
`push a` succeeds, the new live prefix is `xs ++ [a]` (the value lands in slot
`length` and all previously live elements are unchanged) and the length grows
by one; `push` fails (fatally) exactly when `xs.length = N`. -/
theorem claim_C5_push_spec {T : Type} {N : Nat} (v : StaticVector T N) (xs : List T)
    (a : T) (hwf : v.WF xs) :
    (xs.length < N →
      ∃ w, v.push a = Except.ok w ∧ w.WF (xs ++ [a]) ∧ w.len = xs.length + 1) ∧
    ((∃ s, v.push a = Except.error s) ↔ xs.length = N) := by
  refine ⟨fun h => ?_, push_error_iff hwf a⟩
  obtain ⟨w, hok, hwfw⟩ := push_ok hwf a h
  refine ⟨w, hok, hwfw, ?_⟩
  rw [wf_len hwfw]
  simp

/-- C6: converting a well-formed container holding `xs` into the owning
consuming iterator sets the source container's length to zero (its state is
well-formed and empty), and any number `k` of successive `next` calls yields
exactly the elements of `xs`, in order, each once, followed by `none`
(exhaustion) on every call past the end. -/
theorem claim_C6_into_iter_spec {T : Type} {N : Nat} (v : StaticVector T N)
    (xs : List T) (k : Nat) (hwf : v.WF xs) :
    (v.into_iter).2.len = 0 ∧ (v.into_iter).2.WF [] ∧
    IntoIter.nextN (v.into_iter).1 k =
      (xs.map some).take k ++ List.replicate (k - xs.length) none := by
  refine ⟨rfl, into_iter_src_wf hwf, ?_⟩
  have hl := wf_len hwf
  have hsl := wf_storage_length hwf
  have hle := wf_len_le hwf
  have h1 : (v.into_iter).1 = ⟨v.storage, v.len, 0⟩ := rfl
  rw [h1, hl]
  have hspec := nextN_spec (N := N) v.storage xs 0 k (by omega) (wf_get hwf)
  simpa using hspec

/-- C7: every public operation preserves the capacity/length invariant
`0 ≤ len ≤ capacity` (the lower bound is inherent in `Nat`): constructors
establish it, and starting from any state satisfying it, push, pop, pop_if,
clear, truncate, resize, remove, remove_swap, insert and the conversion to
the consuming iterator all keep it, on both their normal and their fatal
outcome. -/
theorem claim_C7_invariant (T : Type) (N : Nat) (v : StaticVector T N)
    (ys : List T) (a fill : T) (i n : Nat) (f : T → T × Bool) (hinv : v.Inv) :
    (new T N).Inv ∧ (from_array ys).Inv ∧ (from_slice (T := T) N ys).Inv ∧
    (∀ w, v.push a = Except.ok w → w.Inv) ∧
    (∀ s, v.push a = Except.error s → s.Inv) ∧
    (v.pop).2.Inv ∧
    (v.pop_if f).2.Inv ∧
    (v.clear).Inv ∧
    (v.truncate n).Inv ∧
    (∀ w, v.resize n fill = Except.ok w → w.Inv) ∧
    (∀ s, v.resize n fill = Except.error s → s.Inv) ∧
    (∀ p, v.remove i = Except.ok p → p.2.Inv) ∧
    (∀ s, v.remove i = Except.error s → s.Inv) ∧
    (∀ p, v.remove_swap i = Except.ok p → p.2.Inv) ∧
    (∀ s, v.remove_swap i = Except.error s → s.Inv) ∧
    (∀ w, v.insert i a = Except.ok w → w.Inv) ∧
    (∀ s, v.insert i a = Except.error s → s.Inv) ∧
    (v.into_iter).2.Inv := by
  simp only [StaticVector.Inv, StaticVector.capacity] at hinv ⊢
  refine ⟨?_, ?_, ?_, ?_, ?_, ?_, ?_, ?_, ?_, ?_, ?_, ?_, ?_, ?_, ?_, ?_, ?_, ?_⟩
  · exact Nat.zero_le N
  · exact Nat.le_refl _
  · show min N ys.length ≤ N
    omega
  · intro w hw
    rw [push] at hw
    split at hw
    · injection hw with h2
      subst h2
      show v.len + 1 ≤ N
      omega
    · cases hw
  · intro s hs
    rw [push] at hs
    split at hs
    · cases hs
    · injection hs with h2
      subst h2
      exact hinv
  · rw [pop_snd]
    show v.len - 1 ≤ N
    omega
  · exact Nat.le_trans (pop_if_len_le v f) hinv
  · rw [clear_eq]
    exact Nat.zero_le N
  · rw [truncate]
    split
    · rw [unchecked_truncate_eq']
      show min n v.len ≤ N
      omega
    · exact hinv
  · intro w hw
    rw [resize] at hw
    split at hw
    · injection hw with h2
      subst h2
      rw [unchecked_truncate_eq']
      show min n v.len ≤ N
      omega
    · split at hw
      · injection hw with h2
        subst h2
        show n ≤ N
        rename_i hc
        rw [capacity] at hc
        omega
      · cases hw
  · intro s hs
    rw [resize] at hs
    split at hs
    · cases hs
    · split at hs
      · cases hs
      · injection hs with h2
        subst h2
        exact hinv
  · intro p hp
    rw [remove] at hp
    split at hp
    · injection hp with h2
      subst h2
      show v.len - 1 ≤ N
      omega
    · cases hp
  · intro s hs
    rw [remove] at hs
    split at hs
    · cases hs
    · injection hs with h2
      subst h2
      exact hinv
  · intro p hp
    rw [remove_swap] at hp
    split at hp
    · injection hp with h2
      subst h2
      show v.len - 1 ≤ N
      omega
    · cases hp
  · intro s hs
    rw [remove_swap] at hs
    split at hs
    · cases hs
    · injection hs with h2
      subst h2
      exact hinv
  · intro w hw
    rw [StaticVector.insert] at hw
    split at hw
    · cases hw
    · split at hw
      · cases hw
      · split at hw
        · injection hw with h2
          subst h2
          show v.len + 1 ≤ N
          rename_i hc1 hc2 hc3
          rw [capacity] at hc2
          omega
        · injection hw with h2
          subst h2
          show v.len + 1 ≤ N
          rename_i hc1 hc2 hc3
          rw [capacity] at hc2
          omega
  · intro s hs
    rw [StaticVector.insert] at hs
    split at hs
    · injection hs with h2
      subst h2
      exact hinv
    · split at hs
      · injection hs with h2
        subst h2
        exact hinv
      · split at hs
        · cases hs
        · cases hs
  · exact Nat.zero_le N

/-- C8: each operation with a fatal precondition (push when full, insert with
a bad index or a full container, resize beyond capacity, remove and
remove_swap with an out-of-range index) performs its fatal check before any
mutation: the container state carried by the fatal outcome is exactly the
state the operation was invoked on. -/
theorem claim_C8_fatal_no_mutation (T : Type) (N : Nat) (v : StaticVector T N)
    (a fill : T) (i n : Nat) :
    (∀ s, v.push a = Except.error s → s = v) ∧
    (∀ s, v.insert i a = Except.error s → s = v) ∧
    (∀ s, v.resize n fill = Except.error s → s = v) ∧
    (∀ s, v.remove i = Except.error s → s = v) ∧
    (∀ s, v.remove_swap i = Except.error s → s = v) := by
  refine ⟨?_, ?_, ?_, ?_, ?_⟩
  · intro s hs
    rw [push] at hs
    split at hs
    · cases hs
    · injection hs with h2
      exact h2.symm
  · intro s hs
    rw [StaticVector.insert] at hs
    split at hs
    · injection hs with h2
      exact h2.symm
    · split at hs
      · injection hs with h2
        exact h2.symm
      · split at hs
        · cases hs
        · cases hs
  · intro s hs
    rw [resize] at hs
    split at hs
    · cases hs
    · split at hs
      · cases hs
      · injection hs with h2
        exact h2.symm
  · intro s hs
    rw [remove] at hs
    split at hs
    · cases hs
    · injection hs with h2
      exact h2.symm
  · intro s hs
    rw [remove_swap] at hs
    split at hs
    · cases hs
    · injection hs with h2
      exact h2.symm

/-- C9 counterexample: `pop_if` hands the predicate a mutable reference to the
last element, so a predicate that rewrites the element and returns `false`
leaves the container mutated — contradicting the claim that a `false`
predicate means no mutation at all. On the container holding `[1]` with the
predicate that increments its argument and answers `false`, the resulting
container differs from the original. -/
theorem claim_C9_counterexample :
    (StaticVector.pop_if (StaticVector.from_array [1]) (fun t => (t + 1, false))).2 ≠
      StaticVector.from_array [1] := by
  decide

/-- C9 (amended): `pop_if` evaluates the predicate on a mutable reference to
the last element; when the predicate answers `true` it behaves as `pop` of the
updated container (removing and returning the possibly rewritten last
element); when it answers `false` the only mutation is the predicate's own
rewrite of the last element through the reference; the result is empty (never
fatal) on an empty container or a `false` predicate. -/
theorem claim_C9_pop_if_amended {T : Type} {N : Nat} (v : StaticVector T N)
    (xs ys : List T) (x : T) (f : T → T × Bool) (hwf : v.WF xs) :
    (xs = [] → v.pop_if f = (none, v)) ∧
    (xs = ys ++ [x] →
      ((f x).2 = true → ∃ w, v.pop_if f = (some (f x).1, w) ∧ w.WF ys) ∧
      ((f x).2 = false → ∃ w, v.pop_if f = (none, w) ∧ w.WF (ys ++ [(f x).1]))) := by
  constructor
  · intro hcase
    subst hcase
    exact pop_if_nil hwf f
  · intro hcase
    subst hcase
    exact ⟨fun hb => pop_if_true hwf f hb, fun hb => pop_if_false hwf f hb⟩

/-- C10: cloning a well-formed container holding `xs` yields a container with
the same capacity, the same length and an element-wise equal live prefix; the
original is untouched (cloning is a pure function of the source state). -/
theorem claim_C10_clone_spec {T : Type} {N : Nat} (v : StaticVector T N)
    (xs : List T) (hwf : v.WF xs) :
    (v.clone).WF xs ∧ (v.clone).capacity = v.capacity ∧ (v.clone).len = v.len := by
  refine ⟨clone_wf hwf, rfl, ?_⟩
  rw [wf_len (clone_wf hwf), wf_len hwf]

/-- C2 witness: `remove 2` on the container `[1, 2, 3, 4]` (spec scenario 2). -/
theorem claim_C2_witness :
    (StaticVector.from_array [1, 2, 3, 4] : StaticVector Nat 4).WF [1, 2, 3, 4] ∧
    ((∀ hi : 2 < [1, 2, 3, 4].length,
      ∃ w, (StaticVector.from_array [1, 2, 3, 4] : StaticVector Nat 4).remove 2 =
          Except.ok (some 3, w) ∧
        w.WF ([1, 2, 3, 4].take 2 ++ [1, 2, 3, 4].drop 3) ∧
        w.len = [1, 2, 3, 4].length - 1) ∧
    ((∃ s, (StaticVector.from_array [1, 2, 3, 4] : StaticVector Nat 4).remove 2 =
        Except.error s) ↔ [1, 2, 3, 4].length ≤ 2)) :=
  ⟨by decide, claim_C2_remove_spec (StaticVector.from_array [1, 2, 3, 4]) [1, 2, 3, 4] 2
    (by decide)⟩

/-- C3 witness: `remove_swap 0` on the container `[1, 2, 3, 4]`
(spec scenario 3). -/
theorem claim_C3_witness :
    (StaticVector.from_array [1, 2, 3, 4] : StaticVector Nat 4).WF [1, 2, 3, 4] ∧
    ((∀ _ : 0 < [1, 2, 3, 4].length, ∀ last : Nat, [1, 2, 3, 4].getLast? = some last →
      ∃ w, (StaticVector.from_array [1, 2, 3, 4] : StaticVector Nat 4).remove_swap 0 =
          Except.ok (some 1, w) ∧
        w.WF (([1, 2, 3, 4].set 0 last).dropLast) ∧
        w.len = [1, 2, 3, 4].length - 1) ∧
    ((∃ s, (StaticVector.from_array [1, 2, 3, 4] : StaticVector Nat 4).remove_swap 0 =
        Except.error s) ↔ [1, 2, 3, 4].length ≤ 0)) :=
  ⟨by decide, claim_C3_remove_swap_spec (StaticVector.from_array [1, 2, 3, 4])
    [1, 2, 3, 4] 0 (by decide)⟩

/-- C4 witness: `resize 7 42` on the container `[1, 2, 3, 4, 5]` of capacity 10
(spec scenario 4). -/
theorem claim_C4_witness :
    (StaticVector.from_slice (T := Nat) 10 [1, 2, 3, 4, 5]).WF [1, 2, 3, 4, 5] ∧
    ((7 < [1, 2, 3, 4, 5].length →
      (StaticVector.from_slice (T := Nat) 10 [1, 2, 3, 4, 5]).resize 7 42 =
        Except.ok ((StaticVector.from_slice (T := Nat) 10 [1, 2, 3, 4, 5]).truncate 7) ∧
      ((StaticVector.from_slice (T := Nat) 10 [1, 2, 3, 4, 5]).truncate 7).WF
        ([1, 2, 3, 4, 5].take 7)) ∧
    ([1, 2, 3, 4, 5].length ≤ 7 → 7 ≤ 10 →
      ∃ w, (StaticVector.from_slice (T := Nat) 10 [1, 2, 3, 4, 5]).resize 7 42 =
          Except.ok w ∧
        w.WF ([1, 2, 3, 4, 5] ++ List.replicate (7 - [1, 2, 3, 4, 5].length) 42) ∧
        w.len = 7) ∧
    ((∃ s, (StaticVector.from_slice (T := Nat) 10 [1, 2, 3, 4, 5]).resize 7 42 =
        Except.error s) ↔ 10 < 7)) :=
  ⟨by decide, claim_C4_resize_spec (StaticVector.from_slice 10 [1, 2, 3, 4, 5])
    [1, 2, 3, 4, 5] 7 42 (by decide)⟩

/-- C5 witness: pushing `4` onto the container holding `[1, 2, 3]` with
capacity 4. -/
theorem claim_C5_witness :
    (StaticVector.from_slice (T := Nat) 4 [1, 2, 3]).WF [1, 2, 3] ∧
    (([1, 2, 3].length < 4 →
      ∃ w, (StaticVector.from_slice (T := Nat) 4 [1, 2, 3]).push 4 = Except.ok w ∧
        w.WF ([1, 2, 3] ++ [4]) ∧ w.len = [1, 2, 3].length + 1) ∧
    ((∃ s, (StaticVector.from_slice (T := Nat) 4 [1, 2, 3]).push 4 = Except.error s) ↔
      [1, 2, 3].length = 4)) :=
  ⟨by decide, claim_C5_push_spec (StaticVector.from_slice 4 [1, 2, 3]) [1, 2, 3] 4
    (by decide)⟩

/-- C6 witness: consuming the container built from `[1, 2, 3, 4]` with six
`next` calls — the four elements in order, then exhaustion twice
(spec scenario 5). -/
theorem claim_C6_witness :
    (StaticVector.from_array [1, 2, 3, 4] : StaticVector Nat 4).WF [1, 2, 3, 4] ∧
    (((StaticVector.from_array [1, 2, 3, 4] : StaticVector Nat 4).into_iter).2.len = 0 ∧
    ((StaticVector.from_array [1, 2, 3, 4] : StaticVector Nat 4).into_iter).2.WF [] ∧
    IntoIter.nextN
      ((StaticVector.from_array [1, 2, 3, 4] : StaticVector Nat 4).into_iter).1 6 =
      ([1, 2, 3, 4].map some).take 6 ++ List.replicate (6 - [1, 2, 3, 4].length) none) :=
  ⟨by decide, claim_C6_into_iter_spec (StaticVector.from_array [1, 2, 3, 4])
    [1, 2, 3, 4] 6 (by decide)⟩

/-- C7 witness: the invariant conjunction at the container `[1, 2]` of
capacity 2 with sample arguments for every operation. -/
theorem claim_C7_witness :
    (StaticVector.from_array [1, 2] : StaticVector Nat 2).Inv ∧
    ((StaticVector.new Nat 2).Inv ∧ (StaticVector.from_array [7]).Inv ∧
    (StaticVector.from_slice (T := Nat) 2 [7]).Inv ∧
    (∀ w, (StaticVector.from_array [1, 2] : StaticVector Nat 2).push 1 = Except.ok w →
      w.Inv) ∧
    (∀ s, (StaticVector.from_array [1, 2] : StaticVector Nat 2).push 1 = Except.error s →
      s.Inv) ∧
    ((StaticVector.from_array [1, 2] : StaticVector Nat 2).pop).2.Inv ∧
    ((StaticVector.from_array [1, 2] : StaticVector Nat 2).pop_if
      (fun t => (t, true))).2.Inv ∧
    ((StaticVector.from_array [1, 2] : StaticVector Nat 2).clear).Inv ∧
    ((StaticVector.from_array [1, 2] : StaticVector Nat 2).truncate 1).Inv ∧
    (∀ w, (StaticVector.from_array [1, 2] : StaticVector Nat 2).resize 1 2 = Except.ok w →
      w.Inv) ∧
    (∀ s, (StaticVector.from_array [1, 2] : StaticVector Nat 2).resize 1 2 =
      Except.error s → s.Inv) ∧
    (∀ p, (StaticVector.from_array [1, 2] : StaticVector Nat 2).remove 0 = Except.ok p →
      p.2.Inv) ∧
    (∀ s, (StaticVector.from_array [1, 2] : StaticVector Nat 2).remove 0 = Except.error s →
      s.Inv) ∧
    (∀ p, (StaticVector.from_array [1, 2] : StaticVector Nat 2).remove_swap 0 =
      Except.ok p → p.2.Inv) ∧
    (∀ s, (StaticVector.from_array [1, 2] : StaticVector Nat 2).remove_swap 0 =
      Except.error s → s.Inv) ∧
    (∀ w, (StaticVector.from_array [1, 2] : StaticVector Nat 2).insert 0 1 = Except.ok w →
      w.Inv) ∧
    (∀ s, (StaticVector.from_array [1, 2] : StaticVector Nat 2).insert 0 1 =
      Except.error s → s.Inv) ∧
    ((StaticVector.from_array [1, 2] : StaticVector Nat 2).into_iter).2.Inv) :=
  ⟨by decide, claim_C7_invariant Nat 2 (StaticVector.from_array [1, 2]) [7] 1 2 0 1
    (fun t => (t, true)) (by decide)⟩

/-- C8 witness: the no-mutation-on-abort conjunction at the full container
`[1, 2]` with an out-of-range index and an over-capacity resize length. -/
theorem claim_C8_witness :
    (∀ s, (StaticVector.from_array [1, 2] : StaticVector Nat 2).push 9 = Except.error s →
      s = StaticVector.from_array [1, 2]) ∧
    (∀ s, (StaticVector.from_array [1, 2] : StaticVector Nat 2).insert 5 9 =
      Except.error s → s = StaticVector.from_array [1, 2]) ∧
    (∀ s, (StaticVector.from_array [1, 2] : StaticVector Nat 2).resize 7 0 =
      Except.error s → s = StaticVector.from_array [1, 2]) ∧
    (∀ s, (StaticVector.from_array [1, 2] : StaticVector Nat 2).remove 5 =
      Except.error s → s = StaticVector.from_array [1, 2]) ∧
    (∀ s, (StaticVector.from_array [1, 2] : StaticVector Nat 2).remove_swap 5 =
      Except.error s → s = StaticVector.from_array [1, 2]) :=
  claim_C8_fatal_no_mutation Nat 2 (StaticVector.from_array [1, 2]) 9 0 5 7

/-- C9 witness: the amended pop_if behaviour at the container `[5]` with the
predicate that increments through the mutable reference and answers `false`. -/
theorem claim_C9_witness :
    (StaticVector.from_array [5] : StaticVector Nat 1).WF [5] ∧
    (([5] = ([] : List Nat) →
      (StaticVector.from_array [5] : StaticVector Nat 1).pop_if (fun t => (t + 1, false)) =
        (none, StaticVector.from_array [5])) ∧
    ([5] = [] ++ [5] →
      ((5 + 1, false).2 = true →
        ∃ w, (StaticVector.from_array [5] : StaticVector Nat 1).pop_if
            (fun t => (t + 1, false)) = (some (5 + 1, false).1, w) ∧ w.WF []) ∧
      ((5 + 1, false).2 = false →
        ∃ w, (StaticVector.from_array [5] : StaticVector Nat 1).pop_if
            (fun t => (t + 1, false)) = (none, w) ∧ w.WF ([] ++ [(5 + 1, false).1])))) :=
  ⟨by decide, claim_C9_pop_if_amended (StaticVector.from_array [5]) [5] [] 5
    (fun t => (t + 1, false)) (by decide)⟩

/-- C10 witness: cloning the container holding `[4, 5]` with capacity 3. -/
theorem claim_C10_witness :
    (StaticVector.from_slice (T := Nat) 3 [4, 5]).WF [4, 5] ∧
    (((StaticVector.from_slice (T := Nat) 3 [4, 5]).clone).WF [4, 5] ∧
    ((StaticVector.from_slice (T := Nat) 3 [4, 5]).clone).capacity =
      (StaticVector.from_slice (T := Nat) 3 [4, 5]).capacity ∧
    ((StaticVector.from_slice (T := Nat) 3 [4, 5]).clone).len =
      (StaticVector.from_slice (T := Nat) 3 [4, 5]).len) :=
  ⟨by decide, claim_C10_clone_spec (StaticVector.from_slice 3 [4, 5]) [4, 5] (by decide)⟩

end Claims

end StaticContainers
